import Mathlib

/-!
Verification of the `Rotate` table transform (`src/features/rotate.rs`).

The grid is modelled as the "Resizable Grid" capability interface of the
spec: explicit `rows`/`cols` counters together with a total addressing
function `data : Nat × Nat → α` (addressed by `(row, col)`, as in papergrid).
Values of `data` outside the `rows × cols` rectangle are unobservable junk;
the structural primitives below (`swap`, `swap_row`, `swap_column`,
`remove_row`, `remove_column`) are the fallible operations of the interface
and return `none` exactly when one of their indices is out of range, while
`push_row`/`push_column` are total and fill the fresh line with `default`
(empty) cells.

`Rotate.change` is a line-by-line shallow embedding of
`impl TableOption for Rotate { fn change(...) }` (rotate.rs lines 65-149);
each `for` loop of the source is one recursive runner definition, recursing
on the number of remaining iterations.
-/

namespace TabledRotate

/-- The rectangular resizable grid of cells the transform mutates. -/
@[ext]
structure Grid (α : Type) where
  rows : Nat
  cols : Nat
  data : Nat × Nat → α

/-- The four rotation directions (rotate.rs lines 38-59). -/
inductive Rotate where
  | Left
  | Right
  | Top
  | Bottom

variable {α : Type}

/-- Primitive `push_row()`: append one row of empty cells at the end. -/
def push_row [Inhabited α] (g : Grid α) : Grid α :=
  ⟨g.rows + 1, g.cols, fun z => if z.1 = g.rows then default else g.data z⟩

/-- Primitive `push_column()`: append one column of empty cells at the end. -/
def push_column [Inhabited α] (g : Grid α) : Grid α :=
  ⟨g.rows, g.cols + 1, fun z => if z.2 = g.cols then default else g.data z⟩

/-- Primitive `swap(pos_a, pos_b)`: exchange the cells at two in-range
positions; out-of-range indices are an error branch (`none`). -/
def swap (g : Grid α) (p q : Nat × Nat) : Option (Grid α) :=
  if p.1 < g.rows ∧ p.2 < g.cols ∧ q.1 < g.rows ∧ q.2 < g.cols then
    some ⟨g.rows, g.cols, fun z =>
      if z = p then g.data q else if z = q then g.data p else g.data z⟩
  else none

/-- Primitive `swap_row(r1, r2)`: exchange two whole rows. -/
def swap_row (g : Grid α) (r1 r2 : Nat) : Option (Grid α) :=
  if r1 < g.rows ∧ r2 < g.rows then
    some ⟨g.rows, g.cols, fun z =>
      if z.1 = r1 then g.data (r2, z.2)
      else if z.1 = r2 then g.data (r1, z.2)
      else g.data z⟩
  else none

/-- Primitive `swap_column(c1, c2)`: exchange two whole columns. -/
def swap_column (g : Grid α) (c1 c2 : Nat) : Option (Grid α) :=
  if c1 < g.cols ∧ c2 < g.cols then
    some ⟨g.rows, g.cols, fun z =>
      if z.2 = c1 then g.data (z.1, c2)
      else if z.2 = c2 then g.data (z.1, c1)
      else g.data z⟩
  else none

/-- Primitive `remove_row(idx)`: delete row `idx`, shifting later rows up. -/
def remove_row (g : Grid α) (idx : Nat) : Option (Grid α) :=
  if idx < g.rows then
    some ⟨g.rows - 1, g.cols, fun z =>
      if idx ≤ z.1 then g.data (z.1 + 1, z.2) else g.data z⟩
  else none

/-- Primitive `remove_column(idx)`: delete column `idx`, shifting later
columns left. -/
def remove_column (g : Grid α) (idx : Nat) : Option (Grid α) :=
  if idx < g.cols then
    some ⟨g.rows, g.cols - 1, fun z =>
      if idx ≤ z.2 then g.data (z.1, z.2 + 1) else g.data z⟩
  else none

/-- Runner for `for _ in count_rows..n { records.push_row(); }`
(rotate.rs lines 72-74 and 107-109), recursing on the remaining count. -/
def pushRowsLoop [Inhabited α] : Nat → Grid α → Grid α
  | 0, g => g
  | k + 1, g => pushRowsLoop k (push_row g)

/-- Runner for `for _ in count_cols..n { records.push_column(); }`
(rotate.rs lines 76-78 and 111-113). -/
def pushColsLoop [Inhabited α] : Nat → Grid α → Grid α
  | 0, g => g
  | k + 1, g => pushColsLoop k (push_column g)

/-- Runner for the inner transpose loop
`for row in col..count_rows { records.swap((col, row), (row, col)); }`
(rotate.rs lines 82-84 and 117-119): `s` is the current `row`,
`k` the number of remaining iterations. -/
def transposeCol (c : Nat) : Nat → Nat → Grid α → Option (Grid α)
  | _, 0, g => some g
  | s, k + 1, g => (swap g (c, s) (s, c)).bind (transposeCol c (s + 1) k)

/-- Runner for the outer transpose loop `for col in 0..count_cols { ... }`
(rotate.rs lines 81-85 and 116-120): `col` is the current column,
`k` the number of remaining columns. -/
def transposeAll (R : Nat) : Nat → Nat → Grid α → Option (Grid α)
  | _, 0, g => some g
  | col, k + 1, g => (transposeCol col col (R - col) g).bind (transposeAll R (col + 1) k)

/-- Runner for `for row in 0..count_cols / 2 { records.swap_row(row, count_cols - row - 1); }`
(rotate.rs lines 87-89). -/
def mirrorRowsLoop (C : Nat) : Nat → Nat → Grid α → Option (Grid α)
  | _, 0, g => some g
  | row, k + 1, g => (swap_row g row (C - row - 1)).bind (mirrorRowsLoop C (row + 1) k)

/-- Runner for `for col in 0..count_rows / 2 { records.swap_column(col, count_rows - col - 1); }`
(rotate.rs lines 122-124). -/
def mirrorColsLoop (R : Nat) : Nat → Nat → Grid α → Option (Grid α)
  | _, 0, g => some g
  | col, k + 1, g => (swap_column g col (R - col - 1)).bind (mirrorColsLoop R (col + 1) k)

/-- Runner for
`for (shift, row) in (count_rows..n).enumerate() { let row = row - shift; records.remove_column(row); }`
(rotate.rs lines 93-96 and 128-131): `shift` is the enumeration index,
`row` the current range value, `k` the remaining count. -/
def removeColsLoop : Nat → Nat → Nat → Grid α → Option (Grid α)
  | _, _, 0, g => some g
  | shift, row, k + 1, g =>
      (remove_column g (row - shift)).bind (removeColsLoop (shift + 1) (row + 1) k)

/-- Runner for
`for (shift, col) in (count_cols..n).enumerate() { let col = col - shift; records.remove_row(col); }`
(rotate.rs lines 98-101 and 133-136). -/
def removeRowsLoop : Nat → Nat → Nat → Grid α → Option (Grid α)
  | _, _, 0, g => some g
  | shift, col, k + 1, g =>
      (remove_row g (col - shift)).bind (removeRowsLoop (shift + 1) (col + 1) k)

/-- Runner for the inner vertical-flip loop
`for col in 0..count_cols { let last_row = count_rows - row - 1; records.swap((last_row, col), (row, col)); }`
(rotate.rs lines 141-144). -/
def bottomInner (R row : Nat) : Nat → Nat → Grid α → Option (Grid α)
  | _, 0, g => some g
  | col, k + 1, g =>
      (swap g (R - row - 1, col) (row, col)).bind (bottomInner R row (col + 1) k)

/-- Runner for the outer vertical-flip loop `for row in 0..count_rows / 2 { ... }`
(rotate.rs lines 140-145). -/
def bottomAll (R C : Nat) : Nat → Nat → Grid α → Option (Grid α)
  | _, 0, g => some g
  | row, k + 1, g => (bottomInner R row 0 C g).bind (bottomAll R C (row + 1) k)

/-- The whole `Self::Bottom` arm of `Rotate::change` (rotate.rs lines 139-146). -/
def bottomChange (table : Grid α) : Option (Grid α) :=
  bottomAll table.rows table.cols 0 (table.rows / 2) table

/-- Shallow embedding of `Rotate::change` (rotate.rs lines 65-149).
`count_rows`/`count_cols` are read once from `table.shape()` before any
mutation, exactly as in the source; the `Top` arm delegates to `Bottom`
(`Self::Top => Self::Bottom.change(table)`, line 147). -/
def change [Inhabited α] : Rotate → Grid α → Option (Grid α)
  | Rotate.Left, table =>
      let count_rows := table.rows
      let count_cols := table.cols
      let n := max count_rows count_cols
      let padded := pushColsLoop (n - count_cols) (pushRowsLoop (n - count_rows) table)
      (transposeAll count_rows 0 count_cols padded).bind fun g =>
        (mirrorRowsLoop count_cols 0 (count_cols / 2) g).bind fun g =>
          (removeColsLoop 0 count_rows (n - count_rows) g).bind fun g =>
            removeRowsLoop 0 count_cols (n - count_cols) g
  | Rotate.Right, table =>
      let count_rows := table.rows
      let count_cols := table.cols
      let n := max count_rows count_cols
      let padded := pushColsLoop (n - count_cols) (pushRowsLoop (n - count_rows) table)
      (transposeAll count_rows 0 count_cols padded).bind fun g =>
        (mirrorColsLoop count_rows 0 (count_rows / 2) g).bind fun g =>
          (removeColsLoop 0 count_rows (n - count_rows) g).bind fun g =>
            removeRowsLoop 0 count_cols (n - count_cols) g
  | Rotate.Bottom, table => bottomChange table
  | Rotate.Top, table => bottomChange table

/-- Net-effect formula of the vertical flip, from the spec:
`new[i][j] = old[R - 1 - i][j]`, shape unchanged; positions outside the
grid's rectangle are untouched. -/
def vflip (g : Grid α) : Grid α :=
  ⟨g.rows, g.cols, fun z =>
    if z.1 < g.rows ∧ z.2 < g.cols then g.data (g.rows - 1 - z.1, z.2) else g.data z⟩

/-- The vertical flip is an involution on grids. -/
theorem vflip_vflip (g : Grid α) : vflip (vflip g) = g := by
  obtain ⟨R, C, d⟩ := g
  simp only [vflip, Grid.mk.injEq, true_and]
  funext z
  obtain ⟨x, y⟩ := z
  dsimp only
  split_ifs <;>
    first
      | rfl
      | (exfalso; omega)
      | (apply congrArg; simp only [Prod.mk.injEq, and_true, true_and]; omega)
      | (apply congrArg; simp only [Prod.mk.injEq, and_true, true_and])

/-- Effect of the inner vertical-flip loop (`for col in col0..col0+k`): the
cells of rows `row` and `R - 1 - row` in columns `[col0, col0 + k)` are
exchanged, everything else is untouched. -/
theorem bottomInner_eq (R row : Nat) (k : Nat) :
    ∀ (col : Nat) (g : Grid α), row < R → R ≤ g.rows → col + k ≤ g.cols →
      bottomInner R row col k g = some ⟨g.rows, g.cols, fun z =>
        if (z.1 = row ∨ z.1 = R - 1 - row) ∧ col ≤ z.2 ∧ z.2 < col + k then
          g.data (R - 1 - z.1, z.2)
        else g.data z⟩ := by
  induction k with
  | zero =>
      intro col g hrow hR hcol
      simp only [bottomInner]
      congr 1
      obtain ⟨gr, gc, gd⟩ := g
      simp only [Grid.mk.injEq, true_and]
      funext z
      rw [if_neg (by omega)]
  | succ k ih =>
      intro col g hrow hR hcol
      simp only [bottomInner]
      rw [show swap g (R - row - 1, col) (row, col) = some ⟨g.rows, g.cols, fun z =>
            if z = (R - row - 1, col) then g.data (row, col)
            else if z = (row, col) then g.data (R - row - 1, col)
            else g.data z⟩ by
        simp only [swap]
        rw [if_pos]
        exact ⟨by omega, by omega, by omega, by omega⟩]
      rw [Option.some_bind]
      rw [ih (col + 1) _ hrow (by simpa using hR) (by simpa using (by omega : col + 1 + k ≤ g.cols))]
      congr 1
      simp only [Grid.mk.injEq, true_and]
      funext z
      obtain ⟨x, y⟩ := z
      simp only [Prod.mk.injEq]
      split_ifs <;>
        first
          | rfl
          | (exfalso; omega)
          | (apply congrArg; simp only [Prod.mk.injEq, and_true, true_and]; omega)
          | (apply congrArg; simp only [Prod.mk.injEq, and_true, true_and])

/-- Effect of the outer vertical-flip loop for rows `[row0, row0 + k)`
(each exchanged with its mirror partner), with `row0 + k ≤ R / 2`. -/
theorem bottomAll_eq (R C : Nat) (k : Nat) :
    ∀ (row : Nat) (g : Grid α), row + k ≤ R / 2 → R ≤ g.rows → C ≤ g.cols →
      bottomAll R C row k g = some ⟨g.rows, g.cols, fun z =>
        if ((row ≤ z.1 ∧ z.1 < row + k) ∨ (R - row - k ≤ z.1 ∧ z.1 < R - row)) ∧ z.2 < C then
          g.data (R - 1 - z.1, z.2)
        else g.data z⟩ := by
  induction k with
  | zero =>
      intro row g hk hR hC
      simp only [bottomAll]
      congr 1
      obtain ⟨gr, gc, gd⟩ := g
      simp only [Grid.mk.injEq, true_and]
      funext z
      rw [if_neg (by omega)]
  | succ k ih =>
      intro row g hk hR hC
      simp only [bottomAll]
      rw [bottomInner_eq R row C 0 g (by omega) hR (by omega)]
      rw [Option.some_bind]
      rw [ih (row + 1) _ (by omega) (by simpa using hR) (by simpa using hC)]
      congr 1
      simp only [Grid.mk.injEq, true_and]
      funext z
      obtain ⟨x, y⟩ := z
      simp only []
      split_ifs <;>
        first
          | rfl
          | (exfalso; omega)
          | (apply congrArg; simp only [Prod.mk.injEq, and_true, true_and]; omega)
          | (apply congrArg; simp only [Prod.mk.injEq, and_true, true_and])

/-- Effect of the row-padding loop: `k` fresh default rows are appended. -/
theorem pushRowsLoop_eq [Inhabited α] (k : Nat) :
    ∀ g : Grid α, pushRowsLoop k g = ⟨g.rows + k, g.cols, fun z =>
      if g.rows ≤ z.1 ∧ z.1 < g.rows + k then default else g.data z⟩ := by
  induction k with
  | zero =>
      intro g
      simp only [pushRowsLoop]
      refine Grid.ext (by (try dsimp only); try omega) (by (try dsimp only); try omega) ?_
      dsimp only
      funext z
      rw [if_neg (by omega)]
  | succ k ih =>
      intro g
      simp only [pushRowsLoop]
      rw [ih (push_row g)]
      simp only [push_row]
      refine Grid.ext (by (try dsimp only); try omega) (by (try dsimp only); try omega) ?_
      dsimp only
      funext z
      obtain ⟨x, y⟩ := z
      dsimp only
      split_ifs <;>
        first
          | rfl
          | (exfalso; omega)

/-- Effect of the column-padding loop: `k` fresh default columns appended. -/
theorem pushColsLoop_eq [Inhabited α] (k : Nat) :
    ∀ g : Grid α, pushColsLoop k g = ⟨g.rows, g.cols + k, fun z =>
      if g.cols ≤ z.2 ∧ z.2 < g.cols + k then default else g.data z⟩ := by
  induction k with
  | zero =>
      intro g
      simp only [pushColsLoop]
      refine Grid.ext (by (try dsimp only); try omega) (by (try dsimp only); try omega) ?_
      dsimp only
      funext z
      rw [if_neg (by omega)]
  | succ k ih =>
      intro g
      simp only [pushColsLoop]
      rw [ih (push_column g)]
      simp only [push_column]
      refine Grid.ext (by (try dsimp only); try omega) (by (try dsimp only); try omega) ?_
      dsimp only
      funext z
      obtain ⟨x, y⟩ := z
      dsimp only
      split_ifs <;>
        first
          | rfl
          | (exfalso; omega)

/-- Effect of the inner transpose loop at column `c`, rows `[s, s + k)`:
cell `(c, r)` is exchanged with cell `(r, c)` for each visited `r`. -/
theorem transposeCol_eq (c : Nat) (k : Nat) :
    ∀ (s : Nat) (g : Grid α), c < g.rows → c < g.cols → s + k ≤ g.rows → s + k ≤ g.cols →
      transposeCol c s k g = some ⟨g.rows, g.cols, fun z =>
        if (z.1 = c ∧ s ≤ z.2 ∧ z.2 < s + k) ∨ (z.2 = c ∧ s ≤ z.1 ∧ z.1 < s + k) then
          g.data (z.2, z.1)
        else g.data z⟩ := by
  induction k with
  | zero =>
      intro s g hcr hcc hsr hsc
      simp only [transposeCol]
      congr 1
      obtain ⟨gr, gc, gd⟩ := g
      simp only [Grid.mk.injEq, true_and]
      funext z
      rw [if_neg (by omega)]
  | succ k ih =>
      intro s g hcr hcc hsr hsc
      simp only [transposeCol]
      rw [show swap g (c, s) (s, c) = some ⟨g.rows, g.cols, fun z =>
            if z = (c, s) then g.data (s, c)
            else if z = (s, c) then g.data (c, s)
            else g.data z⟩ by
        simp only [swap]
        rw [if_pos]
        exact ⟨by omega, by omega, by omega, by omega⟩]
      rw [Option.some_bind]
      rw [ih (s + 1) _ (by simpa using hcr) (by simpa using hcc)
            (by simpa using (by omega : s + 1 + k ≤ g.rows))
            (by simpa using (by omega : s + 1 + k ≤ g.cols))]
      congr 1
      simp only [Grid.mk.injEq, true_and]
      funext z
      obtain ⟨x, y⟩ := z
      simp only [Prod.mk.injEq]
      split_ifs <;>
        first
          | rfl
          | (exfalso; omega)
          | (apply congrArg; simp only [Prod.mk.injEq, and_true, true_and]; omega)
          | (apply congrArg; simp only [Prod.mk.injEq, and_true, true_and])

/-- Effect of the outer transpose loop over columns `[col, col + k)`: the
triangular region bounded by the original `R` is transposed. Positions
`(a, b)` with `a` a visited column and `a ≤ b < R`, or symmetrically `b` a
visited column and `b ≤ a < R`, receive the cell at their mirror position;
all other positions are untouched. -/
theorem transposeAll_eq (R : Nat) (k : Nat) :
    ∀ (col : Nat) (g : Grid α), R ≤ g.rows → R ≤ g.cols →
      transposeAll R col k g = some ⟨g.rows, g.cols, fun z =>
        if (col ≤ z.1 ∧ z.1 < col + k ∧ z.1 ≤ z.2 ∧ z.2 < R) ∨
           (col ≤ z.2 ∧ z.2 < col + k ∧ z.2 ≤ z.1 ∧ z.1 < R) then
          g.data (z.2, z.1)
        else g.data z⟩ := by
  induction k with
  | zero =>
      intro col g hR hC
      simp only [transposeAll]
      congr 1
      obtain ⟨gr, gc, gd⟩ := g
      simp only [Grid.mk.injEq, true_and]
      funext z
      rw [if_neg (by omega)]
  | succ k ih =>
      intro col g hR hC
      simp only [transposeAll]
      by_cases hcol : col < R
      · rw [transposeCol_eq col (R - col) col g (by omega) (by omega) (by omega) (by omega)]
        rw [Option.some_bind]
        rw [ih (col + 1) _ (by simpa using hR) (by simpa using hC)]
        congr 1
        simp only [Grid.mk.injEq, true_and]
        funext z
        obtain ⟨x, y⟩ := z
        dsimp only
        split_ifs <;>
          first
            | rfl
            | (exfalso; omega)
            | (apply congrArg; simp only [Prod.mk.injEq, and_true, true_and]; omega)
            | (apply congrArg; simp only [Prod.mk.injEq, and_true, true_and])
      · rw [show R - col = 0 by omega]
        simp only [transposeCol]
        rw [Option.some_bind]
        rw [ih (col + 1) g hR hC]
        congr 1
        simp only [Grid.mk.injEq, true_and]
        funext z
        obtain ⟨x, y⟩ := z
        dsimp only
        split_ifs <;>
          first
            | rfl
            | (exfalso; omega)
            | (apply congrArg; simp only [Prod.mk.injEq, and_true, true_and]; omega)
            | (apply congrArg; simp only [Prod.mk.injEq, and_true, true_and])

/-- Effect of the row-mirror loop of the `Left` arm for iterations
`[row, row + k)` (with `row + k ≤ C / 2`): each visited row is exchanged
with its partner `C - 1 - row`, so rows in the two matching bands are
replaced by their mirrored band, all other rows untouched. -/
theorem mirrorRowsLoop_eq (C : Nat) (k : Nat) :
    ∀ (row : Nat) (g : Grid α), row + k ≤ C / 2 → C ≤ g.rows →
      mirrorRowsLoop C row k g = some ⟨g.rows, g.cols, fun z =>
        if (row ≤ z.1 ∧ z.1 < row + k) ∨ (C - row - k ≤ z.1 ∧ z.1 < C - row) then
          g.data (C - 1 - z.1, z.2)
        else g.data z⟩ := by
  induction k with
  | zero =>
      intro row g hk hC
      simp only [mirrorRowsLoop]
      congr 1
      refine Grid.ext (by (try dsimp only); try omega) (by (try dsimp only); try omega) ?_
      dsimp only
      funext z
      rw [if_neg (by omega)]
  | succ k ih =>
      intro row g hk hC
      simp only [mirrorRowsLoop]
      rw [show swap_row g row (C - row - 1) = some ⟨g.rows, g.cols, fun z =>
            if z.1 = row then g.data (C - row - 1, z.2)
            else if z.1 = C - row - 1 then g.data (row, z.2)
            else g.data z⟩ by
        simp only [swap_row]
        rw [if_pos]
        exact ⟨by omega, by omega⟩]
      rw [Option.some_bind]
      rw [ih (row + 1) _ (by omega) (by simpa using hC)]
      congr 1
      refine Grid.ext (by (try dsimp only); try omega) (by (try dsimp only); try omega) ?_
      dsimp only
      funext z
      obtain ⟨x, y⟩ := z
      dsimp only
      split_ifs <;>
        first
          | rfl
          | (exfalso; omega)
          | (apply congrArg; simp only [Prod.mk.injEq, and_true, true_and]; omega)
          | (apply congrArg; simp only [Prod.mk.injEq, and_true, true_and])

/-- Effect of the column-mirror loop of the `Right` arm for iterations
`[col, col + k)` (with `col + k ≤ R / 2`): each visited column is exchanged
with its partner `R - 1 - col`. -/
theorem mirrorColsLoop_eq (R : Nat) (k : Nat) :
    ∀ (col : Nat) (g : Grid α), col + k ≤ R / 2 → R ≤ g.cols →
      mirrorColsLoop R col k g = some ⟨g.rows, g.cols, fun z =>
        if (col ≤ z.2 ∧ z.2 < col + k) ∨ (R - col - k ≤ z.2 ∧ z.2 < R - col) then
          g.data (z.1, R - 1 - z.2)
        else g.data z⟩ := by
  induction k with
  | zero =>
      intro col g hk hR
      simp only [mirrorColsLoop]
      congr 1
      refine Grid.ext (by (try dsimp only); try omega) (by (try dsimp only); try omega) ?_
      dsimp only
      funext z
      rw [if_neg (by omega)]
  | succ k ih =>
      intro col g hk hR
      simp only [mirrorColsLoop]
      rw [show swap_column g col (R - col - 1) = some ⟨g.rows, g.cols, fun z =>
            if z.2 = col then g.data (z.1, R - col - 1)
            else if z.2 = R - col - 1 then g.data (z.1, col)
            else g.data z⟩ by
        simp only [swap_column]
        rw [if_pos]
        exact ⟨by omega, by omega⟩]
      rw [Option.some_bind]
      rw [ih (col + 1) _ (by omega) (by simpa using hR)]
      congr 1
      refine Grid.ext (by (try dsimp only); try omega) (by (try dsimp only); try omega) ?_
      dsimp only
      funext z
      obtain ⟨x, y⟩ := z
      dsimp only
      split_ifs <;>
        first
          | rfl
          | (exfalso; omega)
          | (apply congrArg; simp only [Prod.mk.injEq, and_true, true_and]; omega)
          | (apply congrArg; simp only [Prod.mk.injEq, and_true, true_and])

/-- Effect of the padding-column removal loop: every iteration removes the
column at the same effective index `row - shift`, so `k` columns disappear
and the columns at or beyond the removal index are shifted left by `k`. -/
theorem removeColsLoop_eq (k : Nat) :
    ∀ (shift row : Nat) (g : Grid α), row - shift + k ≤ g.cols →
      removeColsLoop shift row k g = some ⟨g.rows, g.cols - k, fun z =>
        if z.2 < row - shift then g.data z else g.data (z.1, z.2 + k)⟩ := by
  induction k with
  | zero =>
      intro shift row g hb
      simp only [removeColsLoop]
      congr 1
      refine Grid.ext (by (try dsimp only); try omega) (by (try dsimp only); try omega) ?_
      dsimp only
      funext z
      obtain ⟨x, y⟩ := z
      dsimp only
      split_ifs <;> rfl
  | succ k ih =>
      intro shift row g hb
      simp only [removeColsLoop]
      rw [show remove_column g (row - shift) = some ⟨g.rows, g.cols - 1, fun z =>
            if row - shift ≤ z.2 then g.data (z.1, z.2 + 1) else g.data z⟩ by
        simp only [remove_column]
        rw [if_pos]
        omega]
      rw [Option.some_bind]
      rw [ih (shift + 1) (row + 1) _ (by (try dsimp only); omega)]
      congr 1
      refine Grid.ext (by (try dsimp only); try omega) (by (try dsimp only); try omega) ?_
      dsimp only
      funext z
      obtain ⟨x, y⟩ := z
      dsimp only
      split_ifs <;>
        first
          | rfl
          | (exfalso; omega)
          | (apply congrArg; simp only [Prod.mk.injEq, and_true, true_and]; omega)
          | (apply congrArg; simp only [Prod.mk.injEq, and_true, true_and])

/-- Effect of the padding-row removal loop: every iteration removes the row
at the same effective index `col - shift`, so `k` rows disappear and the
rows at or beyond the removal index are shifted up by `k`. -/
theorem removeRowsLoop_eq (k : Nat) :
    ∀ (shift col : Nat) (g : Grid α), col - shift + k ≤ g.rows →
      removeRowsLoop shift col k g = some ⟨g.rows - k, g.cols, fun z =>
        if z.1 < col - shift then g.data z else g.data (z.1 + k, z.2)⟩ := by
  induction k with
  | zero =>
      intro shift col g hb
      simp only [removeRowsLoop]
      congr 1
      refine Grid.ext (by (try dsimp only); try omega) (by (try dsimp only); try omega) ?_
      dsimp only
      funext z
      obtain ⟨x, y⟩ := z
      dsimp only
      split_ifs <;> rfl
  | succ k ih =>
      intro shift col g hb
      simp only [removeRowsLoop]
      rw [show remove_row g (col - shift) = some ⟨g.rows - 1, g.cols, fun z =>
            if col - shift ≤ z.1 then g.data (z.1 + 1, z.2) else g.data z⟩ by
        simp only [remove_row]
        rw [if_pos]
        omega]
      rw [Option.some_bind]
      rw [ih (shift + 1) (col + 1) _ (by (try dsimp only); omega)]
      congr 1
      refine Grid.ext (by (try dsimp only); try omega) (by (try dsimp only); try omega) ?_
      dsimp only
      funext z
      obtain ⟨x, y⟩ := z
      dsimp only
      split_ifs <;>
        first
          | rfl
          | (exfalso; omega)
          | (apply congrArg; simp only [Prod.mk.injEq, and_true, true_and]; omega)
          | (apply congrArg; simp only [Prod.mk.injEq, and_true, true_and])

/-- Master lemma for the `Left` arm: `change` always succeeds, the result
has the transposed shape `(C, R)`, and whenever the original grid has at
least as many rows as columns (`C ≤ R`) the in-range content satisfies the
left-rotation formula `new[i][j] = old[j][C - 1 - i]`. -/
theorem left_master [Inhabited α] (g : Grid α) :
    ∃ g', change Rotate.Left g = some g' ∧ g'.rows = g.cols ∧ g'.cols = g.rows ∧
      (g.cols ≤ g.rows → ∀ i j, i < g.cols → j < g.rows →
        g'.data (i, j) = g.data (j, g.cols - 1 - i)) := by
  simp only [change]
  set R := g.rows with hR
  set C := g.cols with hC
  set n := max R C with hn
  obtain ⟨P, hP, hPr, hPc, hPd⟩ :
      ∃ P, pushColsLoop (n - C) (pushRowsLoop (n - R) g) = P ∧
        P.rows = n ∧ P.cols = n ∧
        ∀ a b, a < R → b < C → P.data (a, b) = g.data (a, b) := by
    rw [pushRowsLoop_eq, pushColsLoop_eq]
    refine ⟨_, rfl, by (try dsimp only); omega, by (try dsimp only); omega, ?_⟩
    intro a b ha hb
    dsimp only
    rw [if_neg (by (try dsimp only); omega), if_neg (by (try dsimp only); omega)]
  obtain ⟨t, ht, htr, htc, htd⟩ :
      ∃ t, transposeAll R 0 C P = some t ∧ t.rows = n ∧ t.cols = n ∧
        (C ≤ R → ∀ a b, a < C → b < R → t.data (a, b) = g.data (b, a)) := by
    rw [transposeAll_eq R C 0 P (by rw [hPr]; omega) (by rw [hPc]; omega)]
    refine ⟨_, rfl, by (try dsimp only); exact hPr, by (try dsimp only); exact hPc, ?_⟩
    intro hRC a b ha hb
    dsimp only
    rw [if_pos (by (try dsimp only); omega)]
    exact hPd b a hb (by omega)
  obtain ⟨m, hm, hmr, hmc, hmd⟩ :
      ∃ m, mirrorRowsLoop C 0 (C / 2) t = some m ∧ m.rows = n ∧ m.cols = n ∧
        (C ≤ R → ∀ i j, i < C → j < R → m.data (i, j) = g.data (j, C - 1 - i)) := by
    rw [mirrorRowsLoop_eq C (C / 2) 0 t (by omega) (by rw [htr]; omega)]
    refine ⟨_, rfl, by (try dsimp only); exact htr, by (try dsimp only); exact htc, ?_⟩
    intro hRC i j hi hj
    dsimp only
    split_ifs with h
    · exact htd hRC (C - 1 - i) j (by omega) hj
    · rw [htd hRC i j hi hj]
      apply congrArg
      simp only [Prod.mk.injEq, true_and]
      omega
  obtain ⟨u, hu, hur, huc, hud⟩ :
      ∃ u, removeColsLoop 0 R (n - R) m = some u ∧ u.rows = n ∧ u.cols = R ∧
        ∀ i j, j < R → u.data (i, j) = m.data (i, j) := by
    rw [removeColsLoop_eq (n - R) 0 R m (by rw [hmc]; omega)]
    refine ⟨_, rfl, by (try dsimp only); exact hmr, by (try dsimp only); rw [hmc]; omega, ?_⟩
    intro i j hj
    dsimp only
    rw [if_pos (by omega)]
  obtain ⟨v, hv, hvr, hvc, hvd⟩ :
      ∃ v, removeRowsLoop 0 C (n - C) u = some v ∧ v.rows = C ∧ v.cols = R ∧
        ∀ i j, i < C → v.data (i, j) = u.data (i, j) := by
    rw [removeRowsLoop_eq (n - C) 0 C u (by rw [hur]; omega)]
    refine ⟨_, rfl, by (try dsimp only); rw [hur]; omega, by (try dsimp only); exact huc, ?_⟩
    intro i j hi
    dsimp only
    rw [if_pos (by omega)]
  rw [hP, ht]
  simp only [Option.some_bind]
  rw [hm]
  simp only [Option.some_bind]
  rw [hu]
  simp only [Option.some_bind]
  rw [hv]
  refine ⟨v, rfl, hvr, hvc, ?_⟩
  intro hRC i j hi hj
  rw [hvd i j hi, hud i j hj, hmd hRC i j hi hj]

/-- Master lemma for the `Right` arm: `change` always succeeds, the result
has the transposed shape `(C, R)`, and whenever `C ≤ R` the in-range
content satisfies the right-rotation formula `new[i][j] = old[R - 1 - j][i]`. -/
theorem right_master [Inhabited α] (g : Grid α) :
    ∃ g', change Rotate.Right g = some g' ∧ g'.rows = g.cols ∧ g'.cols = g.rows ∧
      (g.cols ≤ g.rows → ∀ i j, i < g.cols → j < g.rows →
        g'.data (i, j) = g.data (g.rows - 1 - j, i)) := by
  simp only [change]
  set R := g.rows with hR
  set C := g.cols with hC
  set n := max R C with hn
  obtain ⟨P, hP, hPr, hPc, hPd⟩ :
      ∃ P, pushColsLoop (n - C) (pushRowsLoop (n - R) g) = P ∧
        P.rows = n ∧ P.cols = n ∧
        ∀ a b, a < R → b < C → P.data (a, b) = g.data (a, b) := by
    rw [pushRowsLoop_eq, pushColsLoop_eq]
    refine ⟨_, rfl, by (try dsimp only); omega, by (try dsimp only); omega, ?_⟩
    intro a b ha hb
    dsimp only
    rw [if_neg (by (try dsimp only); omega), if_neg (by (try dsimp only); omega)]
  obtain ⟨t, ht, htr, htc, htd⟩ :
      ∃ t, transposeAll R 0 C P = some t ∧ t.rows = n ∧ t.cols = n ∧
        (C ≤ R → ∀ a b, a < C → b < R → t.data (a, b) = g.data (b, a)) := by
    rw [transposeAll_eq R C 0 P (by rw [hPr]; omega) (by rw [hPc]; omega)]
    refine ⟨_, rfl, by (try dsimp only); exact hPr, by (try dsimp only); exact hPc, ?_⟩
    intro hRC a b ha hb
    dsimp only
    rw [if_pos (by (try dsimp only); omega)]
    exact hPd b a hb (by omega)
  obtain ⟨m, hm, hmr, hmc, hmd⟩ :
      ∃ m, mirrorColsLoop R 0 (R / 2) t = some m ∧ m.rows = n ∧ m.cols = n ∧
        (C ≤ R → ∀ i j, i < C → j < R → m.data (i, j) = g.data (R - 1 - j, i)) := by
    rw [mirrorColsLoop_eq R (R / 2) 0 t (by omega) (by rw [htc]; omega)]
    refine ⟨_, rfl, by (try dsimp only); exact htr, by (try dsimp only); exact htc, ?_⟩
    intro hRC i j hi hj
    dsimp only
    split_ifs with h
    · exact htd hRC i (R - 1 - j) hi (by omega)
    · rw [htd hRC i j hi hj]
      apply congrArg
      simp only [Prod.mk.injEq, and_true]
      omega
  obtain ⟨u, hu, hur, huc, hud⟩ :
      ∃ u, removeColsLoop 0 R (n - R) m = some u ∧ u.rows = n ∧ u.cols = R ∧
        ∀ i j, j < R → u.data (i, j) = m.data (i, j) := by
    rw [removeColsLoop_eq (n - R) 0 R m (by rw [hmc]; omega)]
    refine ⟨_, rfl, by (try dsimp only); exact hmr, by (try dsimp only); rw [hmc]; omega, ?_⟩
    intro i j hj
    dsimp only
    rw [if_pos (by omega)]
  obtain ⟨v, hv, hvr, hvc, hvd⟩ :
      ∃ v, removeRowsLoop 0 C (n - C) u = some v ∧ v.rows = C ∧ v.cols = R ∧
        ∀ i j, i < C → v.data (i, j) = u.data (i, j) := by
    rw [removeRowsLoop_eq (n - C) 0 C u (by rw [hur]; omega)]
    refine ⟨_, rfl, by (try dsimp only); rw [hur]; omega, by (try dsimp only); exact huc, ?_⟩
    intro i j hi
    dsimp only
    rw [if_pos (by omega)]
  rw [hP, ht]
  simp only [Option.some_bind]
  rw [hm]
  simp only [Option.some_bind]
  rw [hu]
  simp only [Option.some_bind]
  rw [hv]
  refine ⟨v, rfl, hvr, hvc, ?_⟩
  intro hRC i j hi hj
  rw [hvd i j hi, hud i j hj, hmd hRC i j hi hj]

/-- The `Bottom` arm of `Rotate::change` computes exactly the vertical flip. -/
theorem bottomChange_eq_vflip (g : Grid α) : bottomChange g = some (vflip g) := by
  rw [bottomChange, bottomAll_eq g.rows g.cols (g.rows / 2) 0 g (by omega) le_rfl le_rfl]
  congr 1
  obtain ⟨R, C, d⟩ := g
  simp only [vflip, Grid.mk.injEq, true_and]
  funext z
  obtain ⟨x, y⟩ := z
  dsimp only
  split_ifs <;>
    first
      | rfl
      | (exfalso; omega)
      | (apply congrArg; simp only [Prod.mk.injEq, and_true, true_and]; omega)
      | (apply congrArg; simp only [Prod.mk.injEq, and_true, true_and])


/-- A concrete wide grid (1 row, 2 columns) holding `[[1, 2]]`, used to
exhibit the behaviour of the transpose-family arms when `C > R`. -/
def wideGrid : Grid Nat :=
  ⟨1, 2, fun z => if z = (0, 0) then 1 else if z = (0, 1) then 2 else 0⟩

/-- A concrete tall grid (2 rows, 1 column) holding `[[5], [7]]`. -/
def tallGrid : Grid Nat :=
  ⟨2, 1, fun z => if z = (0, 0) then 5 else if z = (1, 0) then 7 else 0⟩

/-- A concrete grid with an odd number of rows (3 rows, 1 column). -/
def oddGrid : Grid Nat :=
  ⟨3, 1, fun z => z.1 + 10⟩

/-- Claim C1. The left-rotation net-effect formula
`new[i][j] = old[j][C - 1 - i]` fails on the wide grid `[[1, 2]]`
(`R = 1`, `C = 2`): the formula demands `new[0][0] = old[0][1] = 2`, but the
code leaves cell `(0, 0)` holding the empty padding cell (`0`), because the
triangular transpose bounded by the original `R` never visits the cells
`(i, j)` with `j ≥ R`. -/
theorem left_formula_fails_on_wide_grid :
    (change Rotate.Left wideGrid).map (fun h => h.data (0, 0)) = some 0 ∧
    wideGrid.data (0, wideGrid.cols - 1 - 0) = 2 := by
  constructor
  · rfl
  · rfl

/-- Claim C2. The right-rotation net-effect formula
`new[i][j] = old[R - 1 - j][i]` fails on the wide grid `[[1, 2]]`: the
formula demands `new[1][0] = old[0][1] = 2`, but the code leaves cell
`(1, 0)` holding the empty padding cell (`0`). -/
theorem right_formula_fails_on_wide_grid :
    (change Rotate.Right wideGrid).map (fun h => h.data (1, 0)) = some 0 ∧
    wideGrid.data (wideGrid.rows - 1 - 0, 1) = 2 := by
  constructor
  · rfl
  · rfl

/-- Claim C3. `Right ∘ Left` and `Left ∘ Right` do not restore the wide
grid `[[1, 2]]`: both round trips produce a grid whose cell `(0, 1)` is the
empty padding cell (`0`) instead of the original `2`. -/
theorem rotations_not_inverse_on_wide_grid :
    ((change Rotate.Left wideGrid).bind (fun h => change Rotate.Right h)).map
        (fun h => h.data (0, 1)) = some 0 ∧
    ((change Rotate.Right wideGrid).bind (fun h => change Rotate.Left h)).map
        (fun h => h.data (0, 1)) = some 0 ∧
    wideGrid.data (0, 1) = 2 := by
  refine ⟨?_, ?_, ?_⟩
  · rfl
  · rfl
  · rfl

/-- Claim C4. For every grid and every direction `change` succeeds and the
result has the specified shape: `(C, R)` after `Left`/`Right` and `(R, C)`
after `Top`/`Bottom`; in particular a degenerate input (zero rows or zero
columns) yields a grid of dimension product zero whose nonzero dimension is
the expected swapped/unswapped value. -/
theorem change_shape [Inhabited α] (g : Grid α) (r : Rotate) :
    ∃ g', change r g = some g' ∧
      g'.rows = (match r with
        | Rotate.Left => g.cols | Rotate.Right => g.cols
        | Rotate.Top => g.rows | Rotate.Bottom => g.rows) ∧
      g'.cols = (match r with
        | Rotate.Left => g.rows | Rotate.Right => g.rows
        | Rotate.Top => g.cols | Rotate.Bottom => g.cols) := by
  cases r
  case Left =>
    obtain ⟨g', h1, h2, h3, _⟩ := left_master g
    exact ⟨g', h1, h2, h3⟩
  case Right =>
    obtain ⟨g', h1, h2, h3, _⟩ := right_master g
    exact ⟨g', h1, h2, h3⟩
  case Top =>
    exact ⟨vflip g, bottomChange_eq_vflip g, rfl, rfl⟩
  case Bottom =>
    exact ⟨vflip g, bottomChange_eq_vflip g, rfl, rfl⟩

/-- Claim C5. `Bottom` (and likewise `Top`) computes exactly the vertical
flip `vflip`: the shape is unchanged and every cell obeys
`new[i][j] = old[R - 1 - i][j]` inside the grid (and is untouched outside). -/
theorem bottom_top_vertical_flip [Inhabited α] (g : Grid α) :
    change Rotate.Bottom g = some (vflip g) ∧
    change Rotate.Top g = some (vflip g) ∧
    (vflip g).rows = g.rows ∧ (vflip g).cols = g.cols ∧
    ∀ i j, (vflip g).data (i, j) =
      if i < g.rows ∧ j < g.cols then g.data (g.rows - 1 - i, j) else g.data (i, j) :=
  ⟨bottomChange_eq_vflip g, bottomChange_eq_vflip g, rfl, rfl, fun _ _ => rfl⟩

/-- Claim C6. `Top` produces exactly the same result as `Bottom` on every
grid: the `Top` arm delegates to the `Bottom` computation. -/
theorem top_eq_bottom [Inhabited α] (g : Grid α) :
    change Rotate.Top g = change Rotate.Bottom g := rfl

/-- Claim C7. Applying `Bottom` twice restores the original grid exactly. -/
theorem bottom_bottom_id [Inhabited α] (g : Grid α) :
    (change Rotate.Bottom g).bind (fun h => change Rotate.Bottom h) = some g := by
  rw [show change Rotate.Bottom g = some (vflip g) from bottomChange_eq_vflip g,
    Option.some_bind,
    show change Rotate.Bottom (vflip g) = some (vflip (vflip g)) from
      bottomChange_eq_vflip (vflip g),
    vflip_vflip]

/-- Claim C8. For every grid and every direction, the algorithm never hands
an out-of-range index to a structural primitive: in this embedding every
primitive returns `none` on an out-of-range index and `change` propagates
it, yet `change` always returns `some`. -/
theorem change_never_out_of_range [Inhabited α] (g : Grid α) (r : Rotate) :
    (change r g).isSome := by
  cases r
  case Left =>
    obtain ⟨g', h1, _, _, _⟩ := left_master g
    rw [h1]
    rfl
  case Right =>
    obtain ⟨g', h1, _, _, _⟩ := right_master g
    rw [h1]
    rfl
  case Top =>
    rw [show change Rotate.Top g = some (vflip g) from bottomChange_eq_vflip g]
    rfl
  case Bottom =>
    rw [show change Rotate.Bottom g = some (vflip g) from bottomChange_eq_vflip g]
    rfl

/-- Claim C9. For every grid with an odd row count, `Bottom` (and `Top`)
leave the middle row `R / 2 = (R - 1) / 2` unchanged: its swap partner is
itself and the flip loop stops before reaching it. -/
theorem bottom_middle_row_fixed [Inhabited α] (g : Grid α)
    (hodd : g.rows % 2 = 1) :
    ∃ g', change Rotate.Bottom g = some g' ∧ change Rotate.Top g = some g' ∧
      ∀ j, g'.data (g.rows / 2, j) = g.data (g.rows / 2, j) := by
  refine ⟨vflip g, bottomChange_eq_vflip g, bottomChange_eq_vflip g, ?_⟩
  intro j
  show (if g.rows / 2 < g.rows ∧ j < g.cols
    then g.data (g.rows - 1 - g.rows / 2, j) else g.data (g.rows / 2, j)) = _
  split_ifs with hc
  · apply congrArg
    simp only [Prod.mk.injEq, and_true]
    omega
  · rfl

/-- Witness for C9: the hypothesis and conclusion hold on the concrete
3-row grid `oddGrid`. -/
theorem bottom_middle_row_fixed_witness :
    oddGrid.rows % 2 = 1 ∧
    (∃ g', change Rotate.Bottom oddGrid = some g' ∧
      change Rotate.Top oddGrid = some g' ∧
      ∀ j, g'.data (oddGrid.rows / 2, j) = oddGrid.data (oddGrid.rows / 2, j)) :=
  ⟨by decide, bottom_middle_row_fixed oddGrid (by decide)⟩

/-- Claim C10. Under the precondition `R ≥ C` (at least as many rows as
columns, which covers every square grid) the rotation formulas do hold:
`Left` yields `new[i][j] = old[j][C - 1 - i]` and `Right` yields
`new[i][j] = old[R - 1 - j][i]`, with result shape `(C, R)`. -/
theorem rotation_formulas_when_rows_ge_cols [Inhabited α] (g : Grid α)
    (hRC : g.cols ≤ g.rows) :
    (∃ g', change Rotate.Left g = some g' ∧ g'.rows = g.cols ∧ g'.cols = g.rows ∧
      ∀ i j, i < g.cols → j < g.rows → g'.data (i, j) = g.data (j, g.cols - 1 - i)) ∧
    (∃ g', change Rotate.Right g = some g' ∧ g'.rows = g.cols ∧ g'.cols = g.rows ∧
      ∀ i j, i < g.cols → j < g.rows → g'.data (i, j) = g.data (g.rows - 1 - j, i)) := by
  constructor
  · obtain ⟨g', h1, h2, h3, h4⟩ := left_master g
    exact ⟨g', h1, h2, h3, h4 hRC⟩
  · obtain ⟨g', h1, h2, h3, h4⟩ := right_master g
    exact ⟨g', h1, h2, h3, h4 hRC⟩

/-- Witness for C10: on the concrete tall grid `[[5], [7]]` the hypothesis
holds and the rotation formulas evaluate: the left rotation puts the
original cell `(1, 0)` at position `(0, 1)`. -/
theorem rotation_formulas_witness :
    tallGrid.cols ≤ tallGrid.rows ∧
    (∃ g', change Rotate.Left tallGrid = some g' ∧ g'.data (0, 1) = tallGrid.data (1, 0)) := by
  refine ⟨by decide, ?_⟩
  obtain ⟨⟨g', h1, _, _, h4⟩, _⟩ := rotation_formulas_when_rows_ge_cols tallGrid (by decide)
  exact ⟨g', h1, h4 0 1 (by decide) (by decide)⟩

end TabledRotate
